import Mathlib

/-!
Verification of `Generate.py` from PythonUnityAutoBuilderARApplication:
a shallow embedding of the GLB hierarchy extractor, the folder scaffolder,
the Data.json manifest builder, the Excel descriptor validator and the
file-watcher debounce logic, together with theorems settling the spec claims.
-/

namespace Generate

/-- The ASCII whitespace characters removed by Python's `str.strip()`. -/
def isPySpace (c : Char) : Bool :=
  c == ' ' || c == '\t' || c == '\n' || c == '\x0d' || c == '\x0b' || c == '\x0c'

/-- Python's `str.strip()`: remove leading and trailing whitespace. -/
def pyStrip (s : String) : String :=
  ⟨((s.data.dropWhile isPySpace).reverse.dropWhile isPySpace).reverse⟩

/-- Python's `str.lower()` (ASCII range, which is all the source compares). -/
def pyLower (s : String) : String :=
  ⟨s.data.map Char.toLower⟩

/-- Supported image extensions (`IMAGE_EXTENSIONS` in the source). -/
def IMAGE_EXTENSIONS : List String := [".png", ".jpg", ".jpeg", ".gif", ".bmp", ".webp"]

/-- Supported video extensions (`VIDEO_EXTENSIONS` in the source). -/
def VIDEO_EXTENSIONS : List String := [".mp4", ".avi", ".mov", ".mkv", ".webm"]

/-! ## GLB hierarchy extraction (`extract_hierarchy`) -/

/-- A decoded glTF node: optional name and list of child indices,
as delivered by the external scene-graph decoder. -/
structure GNode where
  name : Option String
  children : List Nat
deriving Repr, DecidableEq

/-- A decoded scene graph: the indexed node list (`gltf.nodes`);
index `i` refers to `nodes[i]`. -/
structure SceneGraph where
  nodes : List GNode
deriving Repr, DecidableEq

/-- The name assigned to node `idx`:
`node.name if node.name else f"Node_{idx}"` (empty string is falsy in Python). -/
def pyNodeName (idx : Nat) (nm : Option String) : String :=
  match nm with
  | some s => if s = "" then "Node_" ++ toString idx else s
  | none => "Node_" ++ toString idx

/-- Entry of `nodes_dict` for an index: resolved name and raw child list. -/
def nodesDictEntry (g : SceneGraph) (idx : Nat) : Option (String × List Nat) :=
  match g.nodes[idx]? with
  | some n => some (pyNodeName idx n.name, n.children)
  | none => none

/-- `all_children`: every index appearing in some node's child list. -/
def allChildren (g : SceneGraph) : List Nat :=
  g.nodes.flatMap (fun n => n.children)

/-- `root_nodes`: indices of `nodes_dict` (i.e. `0 .. nodes.length - 1`,
in insertion order) that never appear as a child. -/
def rootNodes (g : SceneGraph) : List Nat :=
  (List.range g.nodes.length).filter (fun idx => ¬ idx ∈ allChildren g)

/-- A part tree node as built by `build_tree`: `{'name': ..., 'children': [...]}`. -/
inductive PTree where
  | node (name : String) (children : List PTree)
deriving Repr

/-- Name of a part tree node. -/
def PTree.name : PTree → String
  | .node n _ => n

/-- Children of a part tree node. -/
def PTree.children : PTree → List PTree
  | .node _ c => c

mutual

/-- Decidable equality for part trees. -/
def PTree.decEq : (t1 t2 : PTree) → Decidable (t1 = t2)
  | .node n1 c1, .node n2 c2 =>
    match String.decEq n1 n2 with
    | Decidable.isFalse h => Decidable.isFalse (by intro he; cases he; exact h rfl)
    | Decidable.isTrue h =>
      match PTree.decEqList c1 c2 with
      | Decidable.isFalse h2 => Decidable.isFalse (by intro he; cases he; exact h2 rfl)
      | Decidable.isTrue h2 => Decidable.isTrue (by rw [h, h2])

/-- Decidable equality for lists of part trees. -/
def PTree.decEqList : (l1 l2 : List PTree) → Decidable (l1 = l2)
  | [], [] => Decidable.isTrue rfl
  | [], _ :: _ => Decidable.isFalse (by intro h; cases h)
  | _ :: _, [] => Decidable.isFalse (by intro h; cases h)
  | t1 :: r1, t2 :: r2 =>
    match PTree.decEq t1 t2 with
    | Decidable.isFalse h => Decidable.isFalse (by intro he; cases he; exact h rfl)
    | Decidable.isTrue h =>
      match PTree.decEqList r1 r2 with
      | Decidable.isFalse h2 => Decidable.isFalse (by intro he; cases he; exact h2 rfl)
      | Decidable.isTrue h2 => Decidable.isTrue (by rw [h, h2])

end

instance : DecidableEq PTree := PTree.decEq

/-- `build_tree(node_idx)`: recursively build the tree for an index.
Returns `none` when the index is absent from `nodes_dict` (malformed child
reference) and prunes `none` children.  The Python recursion terminates on
every acyclic graph with depth at most `nodes.length`; the fuel argument makes
that explicit (callers pass `g.nodes.length + 1`, enough fuel for any graph on
which the Python code terminates). -/
def buildTree (g : SceneGraph) : Nat → Nat → Option PTree
  | 0, _ => none
  | fuel + 1, idx =>
    match nodesDictEntry g idx with
    | none => none
    | some (nm, children) =>
      some (PTree.node nm (children.filterMap (buildTree g fuel)))

/-- `extract_hierarchy`: decode the container (`none` models a decode failure,
which the `except` clause turns into an empty list), build a tree per root
node and keep those whose name is non-blank after stripping. -/
def extract_hierarchy (decoded : Option SceneGraph) : List PTree :=
  match decoded with
  | none => []
  | some g =>
    (rootNodes g).filterMap (fun rootIdx =>
      match buildTree g (g.nodes.length + 1) rootIdx with
      | none => none
      | some t => if pyStrip t.name = "" then none else some t)

/-! ## Excel worksheets

A worksheet row as seen by `openpyxl.iter_rows`: the first two cells
(columns A and B) and any cells beyond column B.  A cell holds `none` for an
empty cell; a non-empty cell's value is modelled by the string Python's
`str()` renders it as. -/
structure XRow where
  a : Option String
  b : Option String
  extra : List (Option String)
deriving Repr, DecidableEq

/-- A worksheet: the list of its rows, row 1 first. -/
abbrev Worksheet := List XRow

/-- The workbook `create_part_excel` writes: a `Key`/`Value` header row and no
data rows (styling — bold font, column widths — does not alter cell values). -/
def defaultWorkbook : Worksheet := [⟨some "Key", some "Value", []⟩]

/-! ## Filesystem model

Paths are component lists below a fixed root; the state tracks the set of
directories and, for each descriptor resource (`.xlsx` file), its content. -/

/-- A filesystem path: list of components below the watched root. -/
abbrev FPath := List String

/-- Filesystem state: existing directories and existing descriptor files
with their contents. -/
structure FS where
  dirs : List FPath
  files : List (FPath × Worksheet)
deriving Repr, DecidableEq

/-- Directory-existence test. -/
def FS.hasDir (fs : FS) (p : FPath) : Bool :=
  fs.dirs.contains p

/-- File-existence test (`Path.exists`). -/
def FS.hasFile (fs : FS) (p : FPath) : Bool :=
  fs.files.any (fun e => e.1 == p)

/-- Content of the file at `p`, if present. -/
def FS.lookupFile (fs : FS) (p : FPath) : Option Worksheet :=
  fs.files.lookup p

/-- `Path.mkdir(exist_ok=True)`: create the directory unless it already
exists, in which case nothing changes. -/
def mkdirExistOk (p : FPath) (fs : FS) : FS :=
  if fs.hasDir p then fs else { fs with dirs := fs.dirs ++ [p] }

/-- `create_part_excel(folder_path, name)`: skip when `openpyxl` is missing
or when `<folder>/<name>.xlsx` already exists; otherwise write the fresh
`Key`/`Value` header workbook there. -/
def create_part_excel (avail : Bool) (folder : FPath) (name : String) (fs : FS) : FS :=
  if avail = false then fs
  else
    let excelPath := folder ++ [name ++ ".xlsx"]
    if fs.hasFile excelPath then fs
    else { fs with files := fs.files ++ [(excelPath, defaultWorkbook)] }

mutual

/-- The loop body of `create_folders_from_hierarchy` for one node: skip a
blank name; otherwise create the node's folder (`exist_ok`), create its
descriptor workbook if absent, and recurse into the children.  Returns the
new state and the folders reported created for this subtree. -/
def create_folders_from_node (avail : Bool) : PTree → FPath → FS → FS × List FPath
  | PTree.node name children, parent, fs =>
    if pyStrip name = "" then (fs, [])
    else
      let nodeFolder := parent ++ [name]
      let fs1 := mkdirExistOk nodeFolder fs
      let fs2 := create_part_excel avail nodeFolder name fs1
      let res3 := create_folders_from_hierarchy avail children nodeFolder fs2
      (res3.1, nodeFolder :: res3.2)

/-- `create_folders_from_hierarchy(hierarchy, parent_folder)`: process the
nodes in order, threading the filesystem state and concatenating the
`created_folders` lists. -/
def create_folders_from_hierarchy (avail : Bool) :
    List PTree → FPath → FS → FS × List FPath
  | [], _, fs => (fs, [])
  | t :: rest, parent, fs =>
    let r1 := create_folders_from_node avail t parent fs
    let r2 := create_folders_from_hierarchy avail rest parent r1.1
    (r2.1, r1.2 ++ r2.2)

end

/-- `fs` is included in `fs'`: whatever exists in `fs` exists in `fs'`. -/
def FS.Incl (fs fs' : FS) : Prop :=
  (∀ p, fs.hasDir p = true → fs'.hasDir p = true) ∧
  (∀ p, fs.hasFile p = true → fs'.hasFile p = true)

mutual

/-- Everything the scaffolder would create for this node already exists in
`fs` (so scaffolding it again is a no-op). -/
def ScaffoldDoneNode (avail : Bool) : PTree → FPath → FS → Prop
  | PTree.node name children, parent, fs =>
    pyStrip name ≠ "" →
      fs.hasDir (parent ++ [name]) = true ∧
      (avail = true → fs.hasFile ((parent ++ [name]) ++ [name ++ ".xlsx"]) = true) ∧
      ScaffoldDoneList avail children (parent ++ [name]) fs

/-- Everything the scaffolder would create for this forest below this parent
already exists in `fs`. -/
def ScaffoldDoneList (avail : Bool) : List PTree → FPath → FS → Prop
  | [], _, _ => True
  | t :: rest, parent, fs =>
    ScaffoldDoneNode avail t parent fs ∧ ScaffoldDoneList avail rest parent fs

end

/-! ## Descriptor validation (`validate_and_read_excel`) -/

/-- One accepted descriptor row: `{"key": ..., "value": ...}`. -/
structure DRow where
  key : String
  value : String
deriving Repr, DecidableEq

/-- `str(cell.value).strip() if cell.value is not None else ""`. -/
def cellStr : Option String → String
  | some s => pyStrip s
  | none => ""

/-- Whether a row holds stray data beyond column B. -/
def rowHasStray (r : XRow) : Bool :=
  r.extra.any (fun c => c.isSome)

/-- Whether a data row records a missing-value or missing-key violation. -/
def dataRowError (r : XRow) : Bool :=
  let key := cellStr r.a
  let value := cellStr r.b
  (key != "" && value == "") || (key == "" && value != "")

/-- The description entry a data row contributes, if any: a row with both
key and value is accepted, every other row contributes nothing. -/
def dataRowEntry (r : XRow) : Option DRow :=
  let key := cellStr r.a
  let value := cellStr r.b
  if key != "" && value != "" then some ⟨key, value⟩ else none

/-- `validate_and_read_excel(excel_path)`: returns `some []` when `openpyxl`
is missing; otherwise scans all rows for stray data beyond column B and the
data rows (row 2 onward) for missing keys/values, returning `none` on any
violation and the accepted rows otherwise. -/
def validate_and_read_excel (avail : Bool) (ws : Worksheet) : Option (List DRow) :=
  if avail = false then some []
  else
    if ws.any rowHasStray || (ws.drop 1).any dataRowError then none
    else some ((ws.drop 1).filterMap dataRowEntry)

/-- The per-resource step of `update_json_from_excel`: the held description
is replaced only when validation succeeds (`if desc is not None`). -/
def applyExcelUpdate (prior : List DRow) (result : Option (List DRow)) : List DRow :=
  match result with
  | none => prior
  | some d => d

/-- Whether the validator records at least one violation for a worksheet. -/
def hasViolation (ws : Worksheet) : Bool :=
  ws.any rowHasStray || (ws.drop 1).any dataRowError

/-! ## Manifest building (`scan_folder_for_images`, `scan_folder_structure`,
`generate_data_json`) -/

/-- A file name split as `pathlib` does: `stem` plus extension `ext`
(Python's `Path.suffix`, dot included). -/
structure FName where
  stem : String
  ext : String
deriving Repr, DecidableEq

/-- The full file name. -/
def FName.name (f : FName) : String := f.stem ++ f.ext

/-- Python code-point comparison of character lists (`str.__lt__`). -/
def chListLt : List Char → List Char → Bool
  | [], [] => false
  | [], _ :: _ => true
  | _ :: _, [] => false
  | c :: cs, d :: ds =>
    if c.toNat < d.toNat then true
    else if d.toNat < c.toNat then false
    else chListLt cs ds

/-- Python string `<`. -/
def pyStrLt (s t : String) : Bool := chListLt s.data t.data

/-- Insert into a sorted list after all entries with a key not greater,
the step of a stable ascending sort. -/
def insertSorted (key : α → String) (x : α) : List α → List α
  | [] => [x]
  | y :: ys => if pyStrLt (key x) (key y) then x :: y :: ys else y :: insertSorted key x ys

/-- Python's stable `list.sort(key=...)`: ascending by key, ties keep their
original relative order. -/
def pySortByKey (key : α → String) (l : List α) : List α :=
  l.foldl (fun acc x => insertSorted key x acc) []

/-- One button entry of the manifest. -/
structure Button where
  name : String
  imagePath : String
deriving Repr, DecidableEq

/-- Whether a file is an image (`file.suffix.lower() in IMAGE_EXTENSIONS`). -/
def isImageFile (f : FName) : Bool :=
  IMAGE_EXTENSIONS.contains (pyLower f.ext)

/-- The button a file contributes to `scan_folder_for_images`, if any:
image files keep their stem as button name and their base-relative path,
except a file whose stem lowercases to `qrcode`. -/
def buttonEntry (relDir : List String) (f : FName) : Option Button :=
  if isImageFile f && pyLower f.stem != "qrcode" then
    some ⟨f.stem, String.intercalate "/" (relDir ++ [f.name])⟩
  else none

/-- `scan_folder_for_images(folder_path, base_path)`: the folder's image
files (qrcode-stemmed ones excluded) as buttons, sorted by name.  `relDir`
is the folder's path relative to `base_path`; `files` the folder's files in
filesystem iteration order. -/
def scan_folder_for_images (relDir : List String) (files : List FName) : List Button :=
  pySortByKey Button.name (files.filterMap (buttonEntry relDir))

/-- `find_video_for_part(part_name, base_path)`: the relative path of
`Assets/Videos/<part><ext>` for the first extension present, the empty
string when the Videos folder is absent (`videos = none`) or no candidate
exists.  (The Python iterates the `VIDEO_EXTENSIONS` set; the model fixes
the literal's order.) -/
def find_video_for_part (partName : String) (videos : Option (List FName)) : String :=
  match videos with
  | none => ""
  | some vfiles =>
    match VIDEO_EXTENSIONS.find? (fun ext => vfiles.any (fun f => f.name == partName ++ ext)) with
    | some ext => "Assets/Videos/" ++ partName ++ ext
    | none => ""

/-- A directory on disk: its name, its files and its subdirectories, both in
filesystem iteration order. -/
inductive Dir where
  | mk (dname : String) (files : List FName) (subdirs : List Dir)

/-- Directory name. -/
def Dir.dname : Dir → String
  | .mk n _ _ => n

/-- Directory files. -/
def Dir.files : Dir → List FName
  | .mk _ fs _ => fs

/-- Subdirectories. -/
def Dir.subdirs : Dir → List Dir
  | .mk _ _ subs => subs

/-- A manifest part entry. -/
inductive PartRecord where
  | mk (name : String) (video : String) (datasheet : String)
       (description : List DRow) (buttons : List Button) (parts : List PartRecord)

/-- Part name. -/
def PartRecord.name : PartRecord → String
  | .mk n _ _ _ _ _ => n

/-- Part buttons. -/
def PartRecord.buttons : PartRecord → List Button
  | .mk _ _ _ _ b _ => b

/-- Child parts. -/
def PartRecord.parts : PartRecord → List PartRecord
  | .mk _ _ _ _ _ p => p

mutual

/-- `scan_folder_structure(folder_path, base_path)`: one part per
subdirectory not named `Videos`, sorted by name; `relDir` is the folder's
path relative to the base. -/
def scan_folder_structure (videos : Option (List FName)) (relDir : List String) :
    Dir → List PartRecord
  | .mk _ _ subs => pySortByKey PartRecord.name (scanSubdirs videos relDir subs)

/-- The unsorted per-subdirectory pass inside `scan_folder_structure`'s
loop, in iteration order. -/
def scanSubdirs (videos : Option (List FName)) (relDir : List String) :
    List Dir → List PartRecord
  | [] => []
  | Dir.mk n fs subs :: rest =>
    (if n == "Videos" then []
     else [PartRecord.mk n (find_video_for_part n videos) "" []
            (scan_folder_for_images (relDir ++ [n]) fs)
            (scan_folder_structure videos (relDir ++ [n]) (Dir.mk n fs subs))])
    ++ scanSubdirs videos relDir rest

end

/-- The part entry contributed by one subdirectory (empty for `Videos`). -/
def partList (videos : Option (List FName)) (relDir : List String) (s : Dir) :
    List PartRecord :=
  if s.dname == "Videos" then []
  else [PartRecord.mk s.dname (find_video_for_part s.dname videos) "" []
         (scan_folder_for_images (relDir ++ [s.dname]) s.files)
         (scan_folder_structure videos (relDir ++ [s.dname]) s)]

/-! ## `generate_data_json`: the modelFileUrl field -/

/-- Python `s.replace(' ', '')`. -/
def pyRemoveSpaces (s : String) : String :=
  ⟨s.data.filter (fun c => !(c == ' '))⟩

/-- `find_glb_file(folder_path)`: the first `*.glb` glob match directly in
the folder, `none` when there is none. -/
def find_glb_file (files : List FName) : Option FName :=
  (files.filter (fun f => f.ext == ".glb")).head?

/-- The `modelFileUrl` value `generate_data_json` computes: the model folder
name with spaces removed, concatenated with the located GLB file's suffix
(`canonical_model_file`); `none` when no GLB file lies directly under the
model root (in which case `generate_data_json` returns `None`). -/
def generate_modelFileUrl (folderName : String) (files : List FName) : Option String :=
  match find_glb_file files with
  | none => none
  | some glb => some (pyRemoveSpaces folderName ++ glb.ext)

/-- The button name a file contributes, if any (its stem). -/
def buttonName? (f : FName) : Option String :=
  if isImageFile f && pyLower f.stem != "qrcode" then some f.stem else none

/-- Two directory trees presenting the same content up to filesystem
iteration order: equal names, the same files up to permutation, and
subdirectories matched one-to-one, in some order, by recursively equivalent
trees. -/
inductive DirEquiv : Dir → Dir → Prop where
  | mk (n : String) (fs1 fs2 : List FName) (subs1 mid subs2 : List Dir) :
      fs1.Perm fs2 → subs1.Perm mid → List.Forall₂ DirEquiv mid subs2 →
      DirEquiv (Dir.mk n fs1 subs1) (Dir.mk n fs2 subs2)

/-- A directory tree as a real filesystem delivers it: sibling directory
names are distinct, and no two image files of one folder share a stem
(i.e. button names within a folder are distinct). -/
inductive GoodDir : Dir → Prop where
  | mk (n : String) (fs : List FName) (subs : List Dir) :
      (fs.filterMap buttonName?).Nodup →
      (subs.map Dir.dname).Nodup →
      (∀ s ∈ subs, GoodDir s) →
      GoodDir (Dir.mk n fs subs)

/-- A manifest part whose buttons and child parts are sorted ascending by
name at this and every deeper level. -/
inductive WellSortedPart : PartRecord → Prop where
  | mk (n v ds : String) (d : List DRow) (bs : List Button) (ps : List PartRecord) :
      List.Pairwise (fun x y => pyStrLt y.name x.name = false) bs →
      List.Pairwise (fun x y => pyStrLt (PartRecord.name y) (PartRecord.name x) = false) ps →
      (∀ p ∈ ps, WellSortedPart p) →
      WellSortedPart (.mk n v ds d bs ps)

/-! ## Model-root scaffolding entry (`create_folder_structure`) -/

/-- Outcome of `create_folder_structure`'s argument and existing-folder
checks. -/
inductive ScaffoldOutcome where
  | notFound
  | notGlb
  | skippedExisting
  | cancelled
  | overwrote
  | proceeded
deriving Repr, DecidableEq

/-- The branch structure at the head of `create_folder_structure`: missing
source file and non-GLB extension abort; an existing destination folder is
skipped in auto mode, while in manual mode the user is prompted
(`input(...).lower()`) and anything but `y` cancels — `y` removes the whole
existing folder (`shutil.rmtree`) and scaffolding proceeds. -/
def create_folder_structure_decision (glbExists extIsGlb mainFolderExists autoMode : Bool)
    (response : String) : ScaffoldOutcome :=
  if glbExists = false then .notFound
  else if extIsGlb = false then .notGlb
  else if mainFolderExists then
    if autoMode then .skippedExisting
    else if pyLower response != "y" then .cancelled
    else .overwrote
  else .proceeded

/-- Effect of that branch on the pre-existing contents of the destination
folder: `shutil.rmtree` removes everything on `overwrote`; every other
outcome leaves the existing contents untouched. -/
def existingContentsAfter (o : ScaffoldOutcome) (contents : List FPath) : List FPath :=
  match o with
  | .overwrote => []
  | _ => contents

/-! ## Watcher debounce (`UnifiedFileHandler._should_process_file`) -/

/-- The per-model-folder `last_update` dictionary.  Assignment is modelled
by consing a new binding; `lookup` reads the newest one. -/
abbrev ThrottleMap := List (String × ℚ)

/-- `self.update_delay = 1` (seconds). -/
def update_delay : ℚ := 1

/-- `self.last_update.get(str(model_folder), 0)`. -/
def lastUpdateGet (st : ThrottleMap) (root : String) : ℚ :=
  (st.lookup root).getD 0

/-- `self.last_update[str(model_folder)] = current_time`. -/
def setLastUpdate (st : ThrottleMap) (root : String) (t : ℚ) : ThrottleMap :=
  (root, t) :: st

/-- A filesystem event as `_should_process_file` sees it: the path's
extension, the model root `_find_model_folder` resolves (or `none`), and the
wall-clock time `time.time()` of the check. -/
structure FEvent where
  ext : String
  root : Option String
  time : ℚ

/-- The extension filter at the head of `_should_process_file`: only image,
video, or Excel files may trigger an update. -/
def watchedExt (ext : String) : Bool :=
  IMAGE_EXTENSIONS.contains (pyLower ext) || VIDEO_EXTENSIONS.contains (pyLower ext)
    || (pyLower ext == ".xlsx")

/-- `_should_process_file`: reject unwatched extensions and unresolved
roots; otherwise drop the event when the root was last processed less than
`update_delay` ago, and record the time and accept it when not. -/
def should_process_file (st : ThrottleMap) (e : FEvent) : ThrottleMap × Bool :=
  if watchedExt e.ext = false then (st, false)
  else
    match e.root with
    | none => (st, false)
    | some r =>
      if e.time - lastUpdateGet st r < update_delay then (st, false)
      else (setLastUpdate st r e.time, true)

/-- Run a sequence of events through the handler, counting how many pass the
filter (each such event triggers one reconciliation in
`_handle_file_event`). -/
def processEvents (st : ThrottleMap) : List FEvent → ThrottleMap × Nat
  | [] => (st, 0)
  | e :: rest =>
    let res := should_process_file st e
    let res2 := processEvents res.1 rest
    (res2.1, (if res.2 then 1 else 0) + res2.2)

/-! # Theorems -/


/-- Python string comparison is asymmetric. -/
theorem chListLt_asymm (a : List Char) : ∀ b, chListLt a b = true → chListLt b a = false := by
  induction a with
  | nil => intro b h; cases b with
    | nil => simp [chListLt] at h
    | cons d ds => simp [chListLt]
  | cons c cs ih => intro b h; cases b with
    | nil => simp [chListLt] at h
    | cons d ds =>
      simp only [chListLt] at h ⊢
      by_cases h1 : c.toNat < d.toNat
      · have h2 : ¬ d.toNat < c.toNat := by omega
        simp [h1, h2]
      · by_cases h2 : d.toNat < c.toNat
        · simp [h1, h2] at h
        · simp [h1, h2] at h ⊢
          exact ih ds h

/-- Two lists neither of which compares below the other are equal. -/
theorem chListLt_conn (a : List Char) : ∀ b, chListLt a b = false → chListLt b a = false → a = b := by
  induction a with
  | nil => intro b h1 _; cases b with
    | nil => rfl
    | cons d ds => simp [chListLt] at h1
  | cons c cs ih => intro b h1 h2; cases b with
    | nil => simp [chListLt] at h2
    | cons d ds =>
      simp only [chListLt] at h1 h2
      by_cases hcd : c.toNat < d.toNat
      · simp [hcd] at h1
      · by_cases hdc : d.toNat < c.toNat
        · simp [hdc, hcd] at h2
        · have hn : c.toNat = d.toNat := by omega
          have hc : c = d := Char.eq_of_val_eq (UInt32.ext hn)
          simp [hcd, hdc] at h1 h2
          rw [hc, ih ds h1 h2]

/-- Python string comparison is transitive. -/
theorem chListLt_trans (a : List Char) :
    ∀ b c, chListLt a b = true → chListLt b c = true → chListLt a c = true := by
  induction a with
  | nil => intro b c _ hbc; cases c with
    | nil =>
      cases b with
      | nil => simp [chListLt] at hbc
      | cons y ys => simp [chListLt] at hbc
    | cons z zs => simp [chListLt]
  | cons x xs ih =>
    intro b c hab hbc
    cases b with
    | nil => simp [chListLt] at hab
    | cons y ys =>
      cases c with
      | nil => simp [chListLt] at hbc
      | cons z zs =>
        simp only [chListLt] at hab hbc ⊢
        by_cases hxy : x.toNat < y.toNat
        · by_cases hyz : y.toNat < z.toNat
          · have : x.toNat < z.toNat := by omega
            simp [this]
          · by_cases hzy : z.toNat < y.toNat
            · simp [hyz, hzy] at hbc
            · have : x.toNat < z.toNat := by omega
              simp [this]
        · by_cases hyx : y.toNat < x.toNat
          · simp [hxy, hyx] at hab
          · by_cases hyz : y.toNat < z.toNat
            · have : x.toNat < z.toNat := by omega
              simp [this]
            · by_cases hzy : z.toNat < y.toNat
              · simp [hyz, hzy] at hbc
              · have hxz : ¬ x.toNat < z.toNat := by omega
                have hzx : ¬ z.toNat < x.toNat := by omega
                simp [hxy, hyx] at hab
                simp [hyz, hzy] at hbc
                simp [hxz, hzx]
                exact ih ys zs hab hbc

/-- String-level asymmetry of Python `<`. -/
theorem pyStrLt_asymm (a b : String) (h : pyStrLt a b = true) : pyStrLt b a = false :=
  chListLt_asymm a.data b.data h

/-- Two strings neither of which compares below the other are equal. -/
theorem pyStrLt_conn (a b : String) (h1 : pyStrLt a b = false) (h2 : pyStrLt b a = false) :
    a = b := by
  cases a with
  | mk da => cases b with
    | mk db =>
      have : da = db := chListLt_conn da db h1 h2
      rw [this]

/-- String-level transitivity of Python `<`. -/
theorem pyStrLt_trans (a b c : String) (h1 : pyStrLt a b = true) (h2 : pyStrLt b c = true) :
    pyStrLt a c = true :=
  chListLt_trans a.data b.data c.data h1 h2

/-- Inserting into a list permutes to consing. -/
theorem insertSorted_perm (key : α → String) (x : α) (l : List α) :
    (insertSorted key x l).Perm (x :: l) := by
  induction l with
  | nil => simp [insertSorted]
  | cons y ys ih =>
    simp only [insertSorted]
    by_cases h : pyStrLt (key x) (key y) = true
    · simp [h]
    · simp only [h, if_false, Bool.false_eq_true, if_neg, not_false_iff]
      exact (ih.cons y).trans (List.Perm.swap x y ys)

/-- Folding `insertSorted` permutes to appending. -/
theorem foldl_insertSorted_perm (key : α → String) (l acc : List α) :
    (l.foldl (fun acc x => insertSorted key x acc) acc).Perm (acc ++ l) := by
  induction l generalizing acc with
  | nil => simp
  | cons x xs ih =>
    simp only [List.foldl_cons]
    refine (ih (insertSorted key x acc)).trans ?_
    refine (List.Perm.append_right xs (insertSorted_perm key x acc)).trans ?_
    exact List.perm_middle.symm

/-- The stable sort permutes its input. -/
theorem pySortByKey_perm (key : α → String) (l : List α) : (pySortByKey key l).Perm l := by
  simpa using foldl_insertSorted_perm key l []

/-- Insertion preserves ascending-by-key ordering. -/
theorem insertSorted_pairwise (key : α → String) (x : α) (l : List α)
    (h : l.Pairwise (fun u v => pyStrLt (key v) (key u) = false)) :
    (insertSorted key x l).Pairwise (fun u v => pyStrLt (key v) (key u) = false) := by
  induction l with
  | nil => simp [insertSorted]
  | cons y ys ih =>
    rcases List.pairwise_cons.mp h with ⟨hy, hys⟩
    simp only [insertSorted]
    by_cases hxy : pyStrLt (key x) (key y) = true
    · simp only [hxy, if_true]
      refine List.pairwise_cons.mpr ⟨?_, h⟩
      intro z hz
      rcases List.mem_cons.mp hz with rfl | hz'
      · exact pyStrLt_asymm _ _ hxy
      · by_contra hc
        simp only [Bool.not_eq_false] at hc
        have htr := pyStrLt_trans _ _ _ hc hxy
        rw [hy z hz'] at htr
        exact Bool.false_ne_true htr
    · simp only [hxy, if_false, Bool.false_eq_true, if_neg, not_false_iff]
      refine List.pairwise_cons.mpr ⟨?_, ih hys⟩
      intro z hz
      have hz' := (insertSorted_perm key x ys).mem_iff.mp hz
      rcases List.mem_cons.mp hz' with rfl | hz''
      · simp only [Bool.not_eq_true] at hxy
        exact hxy
      · exact hy z hz''

/-- The stable sort's output is ascending by key. -/
theorem pySortByKey_pairwise (key : α → String) (l : List α) :
    (pySortByKey key l).Pairwise (fun u v => pyStrLt (key v) (key u) = false) := by
  suffices h : ∀ acc, acc.Pairwise (fun u v => pyStrLt (key v) (key u) = false) →
      (l.foldl (fun acc x => insertSorted key x acc) acc).Pairwise
        (fun u v => pyStrLt (key v) (key u) = false) from h [] (by simp)
  induction l with
  | nil => intro acc hacc; simpa using hacc
  | cons x xs ih =>
    intro acc hacc
    simp only [List.foldl_cons]
    exact ih _ (insertSorted_pairwise key x acc hacc)

/-- Two sorted lists that are permutations of each other and have pairwise
distinct keys are equal. -/
theorem sorted_lists_unique (key : α → String) (l1 l2 : List α)
    (hp : l1.Perm l2)
    (h1 : l1.Pairwise (fun u v => pyStrLt (key v) (key u) = false))
    (h2 : l2.Pairwise (fun u v => pyStrLt (key v) (key u) = false))
    (hnd : (l1.map key).Nodup) : l1 = l2 := by
  have hnd2 : (l2.map key).Nodup := ((hp.map key).nodup_iff).mp hnd
  have strict : ∀ (l : List α),
      l.Pairwise (fun u v => pyStrLt (key v) (key u) = false) → (l.map key).Nodup →
      l.Pairwise (fun u v => pyStrLt (key u) (key v) = true) := by
    intro l hle hnodup
    have hne : l.Pairwise (fun u v => key u ≠ key v) := List.pairwise_map.mp hnodup
    have hand := hle.and hne
    refine hand.imp ?_
    rintro u v ⟨hr, hnekey⟩
    by_contra hc
    simp only [Bool.not_eq_true] at hc
    exact hnekey (pyStrLt_conn _ _ hc hr)
  have hs1 := strict l1 h1 hnd
  have hs2 := strict l2 h2 hnd2
  haveI : IsAntisymm α (fun u v => pyStrLt (key u) (key v) = true) :=
    ⟨fun a b hab hba => by rw [pyStrLt_asymm _ _ hab] at hba; exact absurd hba Bool.false_ne_true⟩
  exact List.eq_of_perm_of_sorted hp hs1 hs2

/-- The button names a folder contributes are exactly its contributing
stems. -/
theorem map_name_filterMap_buttonEntry (relDir : List String) (files : List FName) :
    (files.filterMap (buttonEntry relDir)).map Button.name = files.filterMap buttonName? := by
  induction files with
  | nil => rfl
  | cons f fs ih =>
    by_cases h : (isImageFile f && (pyLower f.stem != "qrcode")) = true
    · simp [buttonEntry, buttonName?, h, ih]
    · simp [buttonEntry, buttonName?, h, ih]

/-- The per-folder button scan is insensitive to file iteration order as
long as the folder's button names are pairwise distinct. -/
theorem scan_folder_for_images_perm_eq (relDir : List String) (files1 files2 : List FName)
    (hp : files1.Perm files2) (hnd : (files1.filterMap buttonName?).Nodup) :
    scan_folder_for_images relDir files1 = scan_folder_for_images relDir files2 := by
  simp only [scan_folder_for_images]
  have hb : (files1.filterMap (buttonEntry relDir)).Perm (files2.filterMap (buttonEntry relDir)) :=
    hp.filterMap _
  have hperm : (pySortByKey Button.name (files1.filterMap (buttonEntry relDir))).Perm
      (pySortByKey Button.name (files2.filterMap (buttonEntry relDir))) :=
    (pySortByKey_perm _ _).trans (hb.trans (pySortByKey_perm _ _).symm)
  have hnd0 : ((files1.filterMap (buttonEntry relDir)).map Button.name).Nodup := by
    rw [map_name_filterMap_buttonEntry]; exact hnd
  have hnd1 : ((pySortByKey Button.name (files1.filterMap (buttonEntry relDir))).map
      Button.name).Nodup :=
    (((pySortByKey_perm Button.name _).map Button.name).nodup_iff).mpr hnd0
  exact sorted_lists_unique Button.name _ _ hperm
    (pySortByKey_pairwise _ _) (pySortByKey_pairwise _ _) hnd1

/-- C10: at any nesting level, an image file whose stem lowercases to
`qrcode` is excluded from the folder's button list, and every other image
file in the folder is included. -/
theorem C10_theorem (relDir : List String) (files : List FName) :
    (∀ b ∈ scan_folder_for_images relDir files, pyLower b.name ≠ "qrcode") ∧
    (∀ f ∈ files, isImageFile f = true → pyLower f.stem ≠ "qrcode" →
      (⟨f.stem, String.intercalate "/" (relDir ++ [f.name])⟩ : Button) ∈
        scan_folder_for_images relDir files) := by
  constructor
  · intro b hb
    have hb' : b ∈ files.filterMap (buttonEntry relDir) :=
      ((pySortByKey_perm _ _).mem_iff).mp hb
    rcases List.mem_filterMap.mp hb' with ⟨f, _, hfb⟩
    simp only [buttonEntry] at hfb
    split at hfb
    · rename_i hcond
      cases hfb
      rcases (Bool.and_eq_true _ _).mp hcond with ⟨_, hq⟩
      simpa using bne_iff_ne.mp hq
    · exact absurd hfb (by simp)
  · intro f hf himg hq
    have hmem : (⟨f.stem, String.intercalate "/" (relDir ++ [f.name])⟩ : Button) ∈
        files.filterMap (buttonEntry relDir) :=
      List.mem_filterMap.mpr ⟨f, hf, by simp [buttonEntry, himg, hq]⟩
    exact ((pySortByKey_perm _ _).mem_iff).mpr hmem

/-- C10 witness: with files `QRCode.png` and `a.png`, no button lowercases
to `qrcode` and `a.png` is a button. -/
theorem C10_witness :
    (∀ b ∈ scan_folder_for_images [] [⟨"QRCode", ".png"⟩, ⟨"a", ".png"⟩],
      pyLower b.name ≠ "qrcode") ∧
    (⟨"a", String.intercalate "/" ([] ++ [FName.name ⟨"a", ".png"⟩])⟩ : Button) ∈
      scan_folder_for_images [] [⟨"QRCode", ".png"⟩, ⟨"a", ".png"⟩] :=
  ⟨(C10_theorem [] [⟨"QRCode", ".png"⟩, ⟨"a", ".png"⟩]).1,
   (C10_theorem [] [⟨"QRCode", ".png"⟩, ⟨"a", ".png"⟩]).2 ⟨"a", ".png"⟩ (by simp)
     (by rfl) (by decide)⟩

/-- `scanSubdirs` is the concatenation of each subdirectory's contribution. -/
theorem scanSubdirs_eq_flatMap (videos : Option (List FName)) (relDir : List String)
    (l : List Dir) :
    scanSubdirs videos relDir l = l.flatMap (partList videos relDir) := by
  induction l with
  | nil => rfl
  | cons s rest ih =>
    cases s with
    | mk n fs subs =>
      simp only [scanSubdirs, partList, Dir.dname, Dir.files, Dir.subdirs,
        List.flatMap_cons, ih]

/-- `flatMap` respects permutations of the outer list. -/
theorem flatMap_perm (f : α → List β) {l1 l2 : List α} (hp : l1.Perm l2) :
    (l1.flatMap f).Perm (l2.flatMap f) := by
  induction hp with
  | nil => exact List.Perm.refl _
  | cons x _ ih =>
    simp only [List.flatMap_cons]
    exact List.Perm.append_left (f x) ih
  | swap x y l =>
    simp only [List.flatMap_cons]
    rw [← List.append_assoc, ← List.append_assoc]
    exact List.Perm.append_right _ (List.perm_append_comm)
  | trans _ _ ih1 ih2 => exact ih1.trans ih2

/-- The part names a directory list contributes are the names of its
non-`Videos` subdirectories. -/
theorem map_name_flatMap_partList (videos : Option (List FName)) (relDir : List String)
    (l : List Dir) :
    (l.flatMap (partList videos relDir)).map PartRecord.name =
      (l.filter (fun s => !(s.dname == "Videos"))).map Dir.dname := by
  induction l with
  | nil => rfl
  | cons s rest ih =>
    by_cases h : (s.dname == "Videos") = true
    · simp [partList, h, ih]
    · simp [partList, h, ih, PartRecord.name]

/-- The manifest builder produces identical output on two presentations of
the same well-formed directory tree, regardless of iteration order. -/
theorem scan_folder_structure_equiv (videos : Option (List FName)) :
    ∀ (d1 d2 : Dir), DirEquiv d1 d2 → GoodDir d1 → ∀ (relDir : List String),
      scan_folder_structure videos relDir d1 = scan_folder_structure videos relDir d2
  | Dir.mk n fs1 subs1, Dir.mk n2 fs2 subs2, he, hg => by
    obtain ⟨_, _, _, _, mid, _, hfs, hmid, hf2⟩ := he
    cases hg with
    | mk _ _ _ hbnd hsnd hgsub =>
      intro relDir
      simp only [scan_folder_structure]
      rw [scanSubdirs_eq_flatMap, scanSubdirs_eq_flatMap]
      have hsz : ∀ s ∈ mid, sizeOf s < sizeOf (Dir.mk n fs1 subs1) := by
        intro s hs
        have hs1 : s ∈ subs1 := (hmid.mem_iff).mpr hs
        have hlt := List.sizeOf_lt_of_mem hs1
        have h2 : sizeOf subs1 < sizeOf (Dir.mk n fs1 subs1) := by
          simp only [Dir.mk.sizeOf_spec]
          omega
        omega
      have hgmid : ∀ s ∈ mid, GoodDir s := fun s hs => hgsub s ((hmid.mem_iff).mpr hs)
      have hmidEq : ∀ (l1 l2 : List Dir), List.Forall₂ DirEquiv l1 l2 →
          (∀ s ∈ l1, GoodDir s) → (∀ s ∈ l1, sizeOf s < sizeOf (Dir.mk n fs1 subs1)) →
          l1.flatMap (partList videos relDir) = l2.flatMap (partList videos relDir) := by
        intro l1 l2 hall
        induction hall with
        | nil => intro _ _; rfl
        | cons hpair hrest ih =>
          rename_i s s2 t1 t2
          intro hgood hsize
          have htail := ih (fun x hx => hgood x (List.mem_cons_of_mem _ hx))
            (fun x hx => hsize x (List.mem_cons_of_mem _ hx))
          simp only [List.flatMap_cons, htail]
          congr 1
          have hgs := hgood _ (List.mem_cons_self _ _)
          have hszs := hsize _ (List.mem_cons_self _ _)
          obtain ⟨m, sfs1, ssubs1⟩ := s
          obtain ⟨m2, sfs2, ssubs2⟩ := s2
          obtain ⟨_, _, _, _, smid, _, hsfs, hsmid, hsf2⟩ := hpair
          have hrec := scan_folder_structure_equiv videos
            (Dir.mk m sfs1 ssubs1) (Dir.mk m sfs2 ssubs2)
            (DirEquiv.mk m sfs1 sfs2 ssubs1 smid ssubs2 hsfs hsmid hsf2) hgs
            (relDir ++ [m])
          cases hgs with
          | mk _ _ _ hsbnd _ _ =>
            by_cases hv : (m == "Videos") = true
            · simp [partList, Dir.dname, hv]
            · have hbtn := scan_folder_for_images_perm_eq (relDir ++ [m]) sfs1 sfs2 hsfs hsbnd
              simp only [partList, Dir.dname, Dir.files, Dir.subdirs]
              rw [if_neg hv, if_neg hv, hbtn, hrec]
      have hEq := hmidEq mid subs2 hf2 hgmid hsz
      have hperm : (subs1.flatMap (partList videos relDir)).Perm
          (subs2.flatMap (partList videos relDir)) := by
        rw [← hEq]; exact flatMap_perm _ hmid
      have hnd : ((subs1.flatMap (partList videos relDir)).map PartRecord.name).Nodup := by
        rw [map_name_flatMap_partList]
        exact List.Nodup.sublist ((List.filter_sublist _).map Dir.dname) hsnd
      have hspm : (pySortByKey PartRecord.name (subs1.flatMap (partList videos relDir))).Perm
          (pySortByKey PartRecord.name (subs2.flatMap (partList videos relDir))) :=
        (pySortByKey_perm _ _).trans (hperm.trans (pySortByKey_perm _ _).symm)
      have hnd1 : ((pySortByKey PartRecord.name (subs1.flatMap (partList videos relDir))).map
          PartRecord.name).Nodup :=
        (((pySortByKey_perm PartRecord.name _).map PartRecord.name).nodup_iff).mpr hnd
      exact sorted_lists_unique PartRecord.name _ _ hspm
        (pySortByKey_pairwise _ _) (pySortByKey_pairwise _ _) hnd1
termination_by d1 _ _ _ => sizeOf d1
decreasing_by exact hszs

/-- Every parts list the manifest builder emits is sorted by part name, and
every emitted part is recursively well-sorted. -/
theorem scan_folder_structure_sorted (videos : Option (List FName)) :
    ∀ (d : Dir) (relDir : List String),
      (scan_folder_structure videos relDir d).Pairwise
        (fun x y => pyStrLt (PartRecord.name y) (PartRecord.name x) = false) ∧
      (∀ p ∈ scan_folder_structure videos relDir d, WellSortedPart p)
  | Dir.mk n fs subs, relDir => by
    constructor
    · simp only [scan_folder_structure]
      exact pySortByKey_pairwise _ _
    · intro p hp
      simp only [scan_folder_structure] at hp
      have hp' : p ∈ scanSubdirs videos relDir subs := ((pySortByKey_perm _ _).mem_iff).mp hp
      rw [scanSubdirs_eq_flatMap] at hp'
      rcases List.mem_flatMap.mp hp' with ⟨s, hs, hps⟩
      have hszs : sizeOf s < sizeOf (Dir.mk n fs subs) := by
        have := List.sizeOf_lt_of_mem hs
        simp only [Dir.mk.sizeOf_spec]
        omega
      by_cases hv : (s.dname == "Videos") = true
      · simp [partList, hv] at hps
      · simp only [partList] at hps
        rw [if_neg hv] at hps
        have hpeq := List.mem_singleton.mp hps
        subst hpeq
        have hrec := scan_folder_structure_sorted videos s (relDir ++ [s.dname])
        refine WellSortedPart.mk _ _ _ _ _ _ ?_ ?_ ?_
        · simp only [scan_folder_for_images]
          exact pySortByKey_pairwise _ _
        · exact hrec.1
        · exact hrec.2
termination_by d _ => sizeOf d
decreasing_by exact hszs

/-- C3 counterexample: two iteration orders of the same directory tree (one
part folder holding `a.png` and `a.jpg`, whose stems tie) are tree-equal yet
produce different manifests, so manifest builds are not identical regardless
of filesystem iteration order. -/
theorem C3_counterexample :
    DirEquiv (Dir.mk "Assets" [] [Dir.mk "P" [⟨"a", ".png"⟩, ⟨"a", ".jpg"⟩] []])
             (Dir.mk "Assets" [] [Dir.mk "P" [⟨"a", ".jpg"⟩, ⟨"a", ".png"⟩] []]) ∧
    scan_folder_structure none []
        (Dir.mk "Assets" [] [Dir.mk "P" [⟨"a", ".png"⟩, ⟨"a", ".jpg"⟩] []]) ≠
    scan_folder_structure none []
        (Dir.mk "Assets" [] [Dir.mk "P" [⟨"a", ".jpg"⟩, ⟨"a", ".png"⟩] []]) := by
  constructor
  · exact DirEquiv.mk "Assets" [] [] _ [Dir.mk "P" [⟨"a", ".png"⟩, ⟨"a", ".jpg"⟩] []] _
      (List.Perm.refl _) (List.Perm.refl _)
      (List.Forall₂.cons
        (DirEquiv.mk "P" [⟨"a", ".png"⟩, ⟨"a", ".jpg"⟩] [⟨"a", ".jpg"⟩, ⟨"a", ".png"⟩]
          [] [] [] (List.Perm.swap (⟨"a", ".jpg"⟩ : FName) (⟨"a", ".png"⟩ : FName) [])
          (List.Perm.refl _) List.Forall₂.nil)
        List.Forall₂.nil)
  · have h1 : scan_folder_structure none []
        (Dir.mk "Assets" [] [Dir.mk "P" [⟨"a", ".png"⟩, ⟨"a", ".jpg"⟩] []]) =
        [PartRecord.mk "P" "" "" [] [⟨"a", "P/a.png"⟩, ⟨"a", "P/a.jpg"⟩] []] := rfl
    have h2 : scan_folder_structure none []
        (Dir.mk "Assets" [] [Dir.mk "P" [⟨"a", ".jpg"⟩, ⟨"a", ".png"⟩] []]) =
        [PartRecord.mk "P" "" "" [] [⟨"a", "P/a.jpg"⟩, ⟨"a", "P/a.png"⟩] []] := rfl
    rw [h1, h2]
    simp

/-- C3 (amended): the manifest builder emits parts sorted by name and
buttons sorted by stem at every level, and two builds over the same
unchanged tree are identical regardless of filesystem iteration order
provided no two image files of one folder share a stem (sibling directory
names being distinct as on any filesystem). -/
theorem C3_theorem (videos : Option (List FName)) (relDir : List String)
    (d1 d2 : Dir) (he : DirEquiv d1 d2) (hg : GoodDir d1) :
    scan_folder_structure videos relDir d1 = scan_folder_structure videos relDir d2 ∧
    (scan_folder_structure videos relDir d1).Pairwise
      (fun x y => pyStrLt (PartRecord.name y) (PartRecord.name x) = false) ∧
    ∀ p ∈ scan_folder_structure videos relDir d1, WellSortedPart p :=
  ⟨scan_folder_structure_equiv videos d1 d2 he hg relDir,
   (scan_folder_structure_sorted videos d1 relDir).1,
   (scan_folder_structure_sorted videos d1 relDir).2⟩

/-- C1 (amended): every root index whose tree builds successfully and whose
name is non-blank after stripping contributes its whole tree as a top-level
part; in particular a single-root graph yields the root's own tree — the
root is never collapsed into its children. -/
theorem C1_theorem (g : SceneGraph) :
    (∀ i t, rootNodes g = [i] → buildTree g (g.nodes.length + 1) i = some t →
      pyStrip t.name ≠ "" → extract_hierarchy (some g) = [t]) ∧
    (∀ j u, j ∈ rootNodes g → buildTree g (g.nodes.length + 1) j = some u →
      pyStrip u.name ≠ "" → u ∈ extract_hierarchy (some g)) := by
  constructor
  · intro i t hroot hbuild hname
    simp [extract_hierarchy, hroot, hbuild, hname]
  · intro j u hj hbuild hname
    simp only [extract_hierarchy]
    refine List.mem_filterMap.mpr ⟨j, hj, ?_⟩
    rw [hbuild]
    simp [hname]

/-- C1 witness: on the Container/Wheel/Door graph the forest is the single
root's own tree. -/
theorem C1_witness :
    extract_hierarchy (some ⟨[⟨some "Container", [1, 2]⟩, ⟨some "Wheel", []⟩,
        ⟨some "Door", []⟩]⟩) =
      [PTree.node "Container" [PTree.node "Wheel" [], PTree.node "Door" []]] :=
  (C1_theorem _).1 0 (PTree.node "Container" [PTree.node "Wheel" [], PTree.node "Door" []])
    rfl rfl (by decide)

/-- C1 counterexample: a graph with exactly one root named `Container` with
children `Wheel` and `Door` does not yield the forest `[Wheel, Door]` — the
root is kept, not collapsed. -/
theorem C1_counterexample :
    rootNodes ⟨[⟨some "Container", [1, 2]⟩, ⟨some "Wheel", []⟩, ⟨some "Door", []⟩]⟩ = [0] ∧
    extract_hierarchy (some ⟨[⟨some "Container", [1, 2]⟩, ⟨some "Wheel", []⟩,
        ⟨some "Door", []⟩]⟩) ≠ [PTree.node "Wheel" [], PTree.node "Door" []] := by
  constructor
  · rfl
  · have h : extract_hierarchy (some ⟨[⟨some "Container", [1, 2]⟩, ⟨some "Wheel", []⟩,
        ⟨some "Door", []⟩]⟩) =
        [PTree.node "Container" [PTree.node "Wheel" [], PTree.node "Door" []]] := rfl
    rw [h]
    simp

/-- C4: a decode failure surfaces as an empty forest, and scaffolding an
empty forest creates nothing: the state is unchanged and no folder is
reported created. -/
theorem C4_theorem :
    extract_hierarchy none = [] ∧
    ∀ (avail : Bool) (parent : FPath) (fs : FS),
      create_folders_from_hierarchy avail (extract_hierarchy none) parent fs = (fs, []) :=
  ⟨rfl, fun _ _ _ => rfl⟩

/-- C9: with the spreadsheet library unavailable the validator returns the
empty success value for every resource, so the caller replaces any prior
description with the empty one instead of retaining it. -/
theorem C9_theorem (ws : Worksheet) (prior : List DRow) :
    validate_and_read_excel false ws = some [] ∧
    applyExcelUpdate prior (validate_and_read_excel false ws) = [] ∧
    (prior ≠ [] → applyExcelUpdate prior (validate_and_read_excel false ws) ≠ prior) := by
  refine ⟨rfl, rfl, ?_⟩
  intro h hc
  exact h (hc.symm.trans rfl)

/-- C9 witness: a caller holding `[(Color, Red)]` ends with `[]`. -/
theorem C9_witness :
    validate_and_read_excel false [⟨some "Key", some "Value", []⟩] = some [] ∧
    applyExcelUpdate [⟨"Color", "Red"⟩]
      (validate_and_read_excel false [⟨some "Key", some "Value", []⟩]) = [] ∧
    applyExcelUpdate [⟨"Color", "Red"⟩]
      (validate_and_read_excel false [⟨some "Key", some "Value", []⟩]) ≠ [⟨"Color", "Red"⟩] :=
  ⟨(C9_theorem [⟨some "Key", some "Value", []⟩] [⟨"Color", "Red"⟩]).1,
   (C9_theorem [⟨some "Key", some "Value", []⟩] [⟨"Color", "Red"⟩]).2.1,
   (C9_theorem [⟨some "Key", some "Value", []⟩] [⟨"Color", "Red"⟩]).2.2 (by simp)⟩

/-- C2: a worksheet with any recorded violation is rejected outright — the
validator returns the failure signal and the caller keeps its prior
description — while a data row with neither key nor value is skipped and is
no violation: deleting it does not change the validation result. -/
theorem C2_theorem (ws : Worksheet) (prior : List DRow) (hd r : XRow) (pre post : Worksheet) :
    (hasViolation ws = true →
      validate_and_read_excel true ws = none ∧
      applyExcelUpdate prior (validate_and_read_excel true ws) = prior) ∧
    (cellStr r.a = "" → cellStr r.b = "" → rowHasStray r = false →
      validate_and_read_excel true (hd :: (pre ++ r :: post)) =
        validate_and_read_excel true (hd :: (pre ++ post))) := by
  constructor
  · intro hviol
    have h1 : validate_and_read_excel true ws = none := by
      simp only [hasViolation] at hviol
      simp only [validate_and_read_excel]
      rw [if_neg (by simp), if_pos hviol]
    refine ⟨h1, ?_⟩
    rw [h1]
    rfl
  · intro hka hkb hstray
    have herr : dataRowError r = false := by simp [dataRowError, hka, hkb]
    have hent : dataRowEntry r = none := by simp [dataRowEntry, hka]
    simp [validate_and_read_excel, List.any_append, List.any_cons, hstray, herr, hent,
      List.filterMap_append, List.filterMap_cons]

/-- C2 witness: a key-only row rejects the resource and the caller keeps
`[(W, 2kg)]`; removing a fully blank data row changes nothing. -/
theorem C2_witness :
    (validate_and_read_excel true [⟨some "Key", some "Value", []⟩, ⟨some "Color", none, []⟩] =
        none ∧
     applyExcelUpdate [⟨"W", "2kg"⟩]
       (validate_and_read_excel true
         [⟨some "Key", some "Value", []⟩, ⟨some "Color", none, []⟩]) = [⟨"W", "2kg"⟩]) ∧
    validate_and_read_excel true
        (⟨some "Key", some "Value", []⟩ :: ([] ++ (⟨none, none, []⟩ : XRow) ::
          [⟨some "Color", some "Red", []⟩])) =
      validate_and_read_excel true
        (⟨some "Key", some "Value", []⟩ :: ([] ++ [⟨some "Color", some "Red", []⟩])) :=
  ⟨(C2_theorem [⟨some "Key", some "Value", []⟩, ⟨some "Color", none, []⟩] [⟨"W", "2kg"⟩]
      ⟨some "Key", some "Value", []⟩ ⟨none, none, []⟩ [] []).1 rfl,
   (C2_theorem [] [] ⟨some "Key", some "Value", []⟩ ⟨none, none, []⟩ []
      [⟨some "Color", some "Red", []⟩]).2 rfl rfl rfl⟩

/-- C6 counterexample: in manual mode with an existing destination folder
and the answer `y`, scaffolding is not skipped — the existing folder is
removed wholesale. -/
theorem C6_counterexample :
    create_folder_structure_decision true true true false "y" = ScaffoldOutcome.overwrote ∧
    existingContentsAfter (create_folder_structure_decision true true true false "y")
      [["Assets"]] = [] ∧
    ([] : List FPath) ≠ [["Assets"]] :=
  ⟨rfl, rfl, by simp⟩

/-- C6 (amended): with an existing destination folder, auto-mode scaffolding
is skipped with a report and the contents are untouched; in manual mode the
user is prompted — declining cancels and preserves the contents, while
answering `y` deletes the existing folder and proceeds. -/
theorem C6_theorem (response : String) (contents : List FPath) :
    (create_folder_structure_decision true true true true response =
        ScaffoldOutcome.skippedExisting ∧
     existingContentsAfter (create_folder_structure_decision true true true true response)
        contents = contents) ∧
    (pyLower response ≠ "y" →
      create_folder_structure_decision true true true false response =
          ScaffoldOutcome.cancelled ∧
      existingContentsAfter (create_folder_structure_decision true true true false response)
          contents = contents) ∧
    (pyLower response = "y" →
      create_folder_structure_decision true true true false response =
          ScaffoldOutcome.overwrote ∧
      existingContentsAfter (create_folder_structure_decision true true true false response)
          contents = []) := by
  refine ⟨⟨rfl, rfl⟩, ?_, ?_⟩
  · intro h
    have hd : create_folder_structure_decision true true true false response =
        ScaffoldOutcome.cancelled := by
      simp [create_folder_structure_decision, bne_iff_ne.mpr h]
    refine ⟨hd, ?_⟩
    rw [hd]
    rfl
  · intro h
    have hd : create_folder_structure_decision true true true false response =
        ScaffoldOutcome.overwrote := by
      simp [create_folder_structure_decision, h]
    refine ⟨hd, ?_⟩
    rw [hd]
    rfl

/-- C6 witness: auto mode skips; answering `n` cancels keeping contents;
answering `Y` overwrites emptying the folder. -/
theorem C6_witness :
    (create_folder_structure_decision true true true true "n" =
        ScaffoldOutcome.skippedExisting ∧
     existingContentsAfter (create_folder_structure_decision true true true true "n")
        [["Assets"]] = [["Assets"]]) ∧
    (create_folder_structure_decision true true true false "n" = ScaffoldOutcome.cancelled ∧
     existingContentsAfter (create_folder_structure_decision true true true false "n")
        [["Assets"]] = [["Assets"]]) ∧
    (create_folder_structure_decision true true true false "Y" = ScaffoldOutcome.overwrote ∧
     existingContentsAfter (create_folder_structure_decision true true true false "Y")
        [["Assets"]] = []) :=
  ⟨( C6_theorem "n" [["Assets"]]).1,
   ( C6_theorem "n" [["Assets"]]).2.1 (by decide),
   ( C6_theorem "Y" [["Assets"]]).2.2 (by decide)⟩

/-- C3 witness: with distinct stems `a`/`b`, the two iteration orders build
identical, sorted manifests. -/
theorem C3_witness :
    scan_folder_structure none []
        (Dir.mk "Assets" [] [Dir.mk "P" [⟨"a", ".png"⟩, ⟨"b", ".png"⟩] []]) =
      scan_folder_structure none []
        (Dir.mk "Assets" [] [Dir.mk "P" [⟨"b", ".png"⟩, ⟨"a", ".png"⟩] []]) ∧
    (scan_folder_structure none []
        (Dir.mk "Assets" [] [Dir.mk "P" [⟨"a", ".png"⟩, ⟨"b", ".png"⟩] []])).Pairwise
      (fun x y => pyStrLt (PartRecord.name y) (PartRecord.name x) = false) ∧
    ∀ p ∈ scan_folder_structure none []
        (Dir.mk "Assets" [] [Dir.mk "P" [⟨"a", ".png"⟩, ⟨"b", ".png"⟩] []]),
      WellSortedPart p :=
  C3_theorem none [] _ _
    (DirEquiv.mk "Assets" [] [] _ [Dir.mk "P" [⟨"a", ".png"⟩, ⟨"b", ".png"⟩] []] _
      (List.Perm.refl _) (List.Perm.refl _)
      (List.Forall₂.cons
        (DirEquiv.mk "P" [⟨"a", ".png"⟩, ⟨"b", ".png"⟩] [⟨"b", ".png"⟩, ⟨"a", ".png"⟩]
          [] [] [] (List.Perm.swap (⟨"b", ".png"⟩ : FName) (⟨"a", ".png"⟩ : FName) [])
          (List.Perm.refl _) List.Forall₂.nil)
        List.Forall₂.nil))
    (GoodDir.mk "Assets" [] [Dir.mk "P" [⟨"a", ".png"⟩, ⟨"b", ".png"⟩] []]
      (by decide) (by decide)
      (by
        intro s hs
        rcases List.mem_singleton.mp hs with rfl
        exact GoodDir.mk "P" [⟨"a", ".png"⟩, ⟨"b", ".png"⟩] [] (by decide) (by decide)
          (by intro t ht; exact absurd ht (List.not_mem_nil t))))

/-- C7: after an accepted event for a root at time `t0`, every further
watched event for that root strictly inside the debounce window is dropped
— a burst triggers exactly one reconciliation and leaves the root stamped
at `t0` — while the first event at or after `t0 + delay` is accepted. -/
theorem C7_theorem (st : ThrottleMap) (r : String) (t0 tn : ℚ) (e0ext extn : String)
    (es : List FEvent)
    (h0ext : watchedExt e0ext = true) (hnext : watchedExt extn = true)
    (h0 : update_delay ≤ t0 - lastUpdateGet st r)
    (hes : ∀ e ∈ es, watchedExt e.ext = true ∧ e.root = some r ∧
      t0 ≤ e.time ∧ e.time < t0 + update_delay)
    (hn : t0 + update_delay ≤ tn) :
    (processEvents st (⟨e0ext, some r, t0⟩ :: es)).2 = 1 ∧
    (processEvents st (⟨e0ext, some r, t0⟩ :: es)).1 = setLastUpdate st r t0 ∧
    (should_process_file (processEvents st (⟨e0ext, some r, t0⟩ :: es)).1
      ⟨extn, some r, tn⟩).2 = true := by
  have hfirst : should_process_file st ⟨e0ext, some r, t0⟩ = (setLastUpdate st r t0, true) := by
    simp only [should_process_file, h0ext]
    rw [if_neg (by simp)]
    rw [if_neg (not_lt.mpr h0)]
  have hlast : lastUpdateGet (setLastUpdate st r t0) r = t0 := by
    simp [lastUpdateGet, setLastUpdate, List.lookup]
  have hdrop : ∀ (l : List FEvent),
      (∀ e ∈ l, watchedExt e.ext = true ∧ e.root = some r ∧
        t0 ≤ e.time ∧ e.time < t0 + update_delay) →
      processEvents (setLastUpdate st r t0) l = (setLastUpdate st r t0, 0) := by
    intro l
    induction l with
    | nil => intro _; rfl
    | cons e rest ih =>
      intro hall
      rcases hall e (List.mem_cons_self _ _) with ⟨hext, hroot, _, hlt⟩
      have hstep : should_process_file (setLastUpdate st r t0) e =
          (setLastUpdate st r t0, false) := by
        simp only [should_process_file, hext, hroot]
        rw [if_neg (by simp), hlast, if_pos (by linarith)]
      have htail := ih (fun x hx => hall x (List.mem_cons_of_mem _ hx))
      simp [processEvents, hstep, htail]
  have hmain : processEvents st (⟨e0ext, some r, t0⟩ :: es) = (setLastUpdate st r t0, 1) := by
    simp [processEvents, hfirst, hdrop es hes]
  refine ⟨by rw [hmain], by rw [hmain], ?_⟩
  rw [hmain]
  simp only [should_process_file, hnext]
  rw [if_neg (by simp), hlast, if_neg (not_lt.mpr (by linarith))]

/-- C7 witness: a burst of three watched events for root `M` at time 1
(last update 0, delay 1) triggers exactly one reconciliation; the next
event at time 2 is accepted. -/
theorem C7_witness :
    (processEvents [] [⟨".png", some "M", 1⟩, ⟨".jpg", some "M", 1⟩,
        ⟨".xlsx", some "M", 1⟩]).2 = 1 ∧
    (processEvents [] [⟨".png", some "M", 1⟩, ⟨".jpg", some "M", 1⟩,
        ⟨".xlsx", some "M", 1⟩]).1 = setLastUpdate [] "M" 1 ∧
    (should_process_file (processEvents [] [⟨".png", some "M", 1⟩, ⟨".jpg", some "M", 1⟩,
        ⟨".xlsx", some "M", 1⟩]).1 ⟨".mp4", some "M", 2⟩).2 = true :=
  C7_theorem [] "M" 1 2 ".png" ".mp4"
    [⟨".jpg", some "M", 1⟩, ⟨".xlsx", some "M", 1⟩]
    (by decide) (by decide)
    (by simp [update_delay, lastUpdateGet])
    (by
      intro e he
      rcases he with _ | ⟨_, he⟩
      · exact ⟨by decide, rfl, le_refl 1, by simp [update_delay, lt_add_iff_pos_right]⟩
      · rcases he with _ | ⟨_, he⟩
        · exact ⟨by decide, rfl, le_refl 1, by simp [update_delay, lt_add_iff_pos_right]⟩
        · exact absurd he (List.not_mem_nil e))
    (by simp [update_delay, one_add_one_eq_two])

/-- C8 counterexample: a model folder `My Model` holding `asset.glb` gets
`modelFileUrl = "MyModel.glb"`, not the scene asset's on-disk name. -/
theorem C8_counterexample :
    generate_modelFileUrl "My Model" [⟨"asset", ".glb"⟩] = some "MyModel.glb" ∧
    FName.name ⟨"asset", ".glb"⟩ = "asset.glb" ∧
    generate_modelFileUrl "My Model" [⟨"asset", ".glb"⟩] ≠
      some (FName.name ⟨"asset", ".glb"⟩) := by
  refine ⟨rfl, rfl, ?_⟩
  intro h
  rw [show generate_modelFileUrl "My Model" [⟨"asset", ".glb"⟩] =
    some "MyModel.glb" from rfl] at h
  rw [show FName.name ⟨"asset", ".glb"⟩ = "asset.glb" from rfl] at h
  exact absurd (Option.some.injEq _ _ ▸ h) (by decide)

/-- C8 (amended): `modelFileUrl` is the model folder's name with spaces
removed plus the suffix of the first `.glb` file found directly under the
model root; when no such file exists no manifest is produced at all. -/
theorem C8_theorem (folderName : String) (files : List FName) :
    (∀ glb, find_glb_file files = some glb →
      glb ∈ files ∧ glb.ext = ".glb" ∧
      generate_modelFileUrl folderName files =
        some (pyRemoveSpaces folderName ++ glb.ext)) ∧
    (find_glb_file files = none ↔ ∀ f ∈ files, f.ext ≠ ".glb") ∧
    (find_glb_file files = none → generate_modelFileUrl folderName files = none) := by
  refine ⟨?_, ?_, ?_⟩
  · intro glb hglb
    have hmem : glb ∈ files.filter (fun f => f.ext == ".glb") := List.mem_of_mem_head? hglb
    rcases List.mem_filter.mp hmem with ⟨hin, hpred⟩
    refine ⟨hin, by simpa using hpred, ?_⟩
    simp only [generate_modelFileUrl, hglb]
  · constructor
    · intro h f hf hext
      have hnil : files.filter (fun f => f.ext == ".glb") = [] :=
        List.head?_eq_none_iff.mp h
      have : f ∈ ([] : List FName) :=
        hnil ▸ List.mem_filter.mpr ⟨hf, by simp [hext]⟩
      exact absurd this (List.not_mem_nil f)
    · intro h
      apply List.head?_eq_none_iff.mpr
      rw [List.filter_eq_nil_iff]
      intro a ha
      simpa using h a ha
  · intro h
    simp only [generate_modelFileUrl, h]

/-- C8 witness: instantiating at `My Model` with `asset.glb`. -/
theorem C8_witness :
    (⟨"asset", ".glb"⟩ : FName) ∈ [(⟨"asset", ".glb"⟩ : FName)] ∧
    (⟨"asset", ".glb"⟩ : FName).ext = ".glb" ∧
    generate_modelFileUrl "My Model" [⟨"asset", ".glb"⟩] =
      some (pyRemoveSpaces "My Model" ++ (⟨"asset", ".glb"⟩ : FName).ext) :=
  ( C8_theorem "My Model" [⟨"asset", ".glb"⟩]).1 ⟨"asset", ".glb"⟩ rfl

/-- Directory existence is list membership. -/
theorem hasDir_iff_mem (fs : FS) (p : FPath) : fs.hasDir p = true ↔ p ∈ fs.dirs := by
  simp [FS.hasDir, List.contains]

/-- `mkdirExistOk` makes the directory exist. -/
theorem mkdir_hasDir_self (p : FPath) (fs : FS) : (mkdirExistOk p fs).hasDir p = true := by
  simp only [mkdirExistOk]
  split
  · assumption
  · rw [hasDir_iff_mem]
    simp

/-- `mkdirExistOk` on an existing directory changes nothing. -/
theorem mkdir_eq_of_hasDir (p : FPath) (fs : FS) (h : fs.hasDir p = true) :
    mkdirExistOk p fs = fs := by
  simp only [mkdirExistOk, h, if_true]

/-- `mkdirExistOk` keeps existing directories. -/
theorem mkdir_hasDir_mono (p q : FPath) (fs : FS) (h : fs.hasDir p = true) :
    (mkdirExistOk q fs).hasDir p = true := by
  simp only [mkdirExistOk]
  split
  · exact h
  · rw [hasDir_iff_mem] at h ⊢
    simp [h]

/-- `mkdirExistOk` does not touch files. -/
theorem mkdir_files (p : FPath) (fs : FS) : (mkdirExistOk p fs).files = fs.files := by
  simp only [mkdirExistOk]
  split <;> rfl

/-- `mkdirExistOk` keeps directories distinct. -/
theorem mkdir_nodup (p : FPath) (fs : FS) (h : fs.dirs.Nodup) :
    (mkdirExistOk p fs).dirs.Nodup := by
  simp only [mkdirExistOk]
  split
  · exact h
  · rename_i hnot
    have hpm : p ∉ fs.dirs := fun hm => hnot ((hasDir_iff_mem fs p).mpr hm)
    simp [List.nodup_append, h, hpm]

/-- `create_part_excel` does not touch directories. -/
theorem cpe_dirs (avail : Bool) (folder : FPath) (name : String) (fs : FS) :
    (create_part_excel avail folder name fs).dirs = fs.dirs := by
  simp only [create_part_excel]
  split
  · rfl
  · split <;> rfl

/-- `create_part_excel` is the identity when skipped or already present. -/
theorem cpe_eq_of_done (avail : Bool) (folder : FPath) (name : String) (fs : FS)
    (h : avail = true → fs.hasFile (folder ++ [name ++ ".xlsx"]) = true) :
    create_part_excel avail folder name fs = fs := by
  simp only [create_part_excel]
  cases avail with
  | false => rfl
  | true =>
    rw [if_neg (by simp)]
    rw [if_pos (h rfl)]

/-- After `create_part_excel` with the library available, the descriptor
file exists. -/
theorem cpe_hasFile_self (folder : FPath) (name : String) (fs : FS) :
    (create_part_excel true folder name fs).hasFile (folder ++ [name ++ ".xlsx"]) = true := by
  simp only [create_part_excel]
  rw [if_neg (by simp)]
  split
  · assumption
  · simp [FS.hasFile, List.any_append]

/-- `create_part_excel` keeps existing files. -/
theorem cpe_hasFile_mono (avail : Bool) (folder : FPath) (name : String) (p : FPath) (fs : FS)
    (h : fs.hasFile p = true) :
    (create_part_excel avail folder name fs).hasFile p = true := by
  simp only [create_part_excel]
  split
  · exact h
  · split
    · exact h
    · simp only [FS.hasFile] at h ⊢
      simp [List.any_append, h]

/-- A successful lookup survives appending more files. -/
theorem lookup_some_append (p : FPath) (c : Worksheet) (l1 l2 : List (FPath × Worksheet))
    (h : l1.lookup p = some c) : (l1 ++ l2).lookup p = some c := by
  induction l1 with
  | nil => simp [List.lookup] at h
  | cons e es ih =>
    obtain ⟨k, v⟩ := e
    by_cases hk : (p == k) = true
    · simp [List.lookup, hk] at h ⊢
      exact h
    · simp only [List.cons_append, List.lookup, hk] at h ⊢
      exact ih h

/-- `create_part_excel` never alters an existing file's content. -/
theorem cpe_lookup_mono (avail : Bool) (folder : FPath) (name : String) (p : FPath)
    (c : Worksheet) (fs : FS) (h : fs.lookupFile p = some c) :
    (create_part_excel avail folder name fs).lookupFile p = some c := by
  simp only [create_part_excel]
  split
  · exact h
  · split
    · exact h
    · simp only [FS.lookupFile] at h ⊢
      exact lookup_some_append p c _ _ h

/-- Inclusion is reflexive. -/
theorem incl_refl (fs : FS) : FS.Incl fs fs := ⟨fun _ h => h, fun _ h => h⟩

/-- Inclusion is transitive. -/
theorem incl_trans {a b c : FS} (h1 : FS.Incl a b) (h2 : FS.Incl b c) : FS.Incl a c :=
  ⟨fun p h => h2.1 p (h1.1 p h), fun p h => h2.2 p (h1.2 p h)⟩

/-- `mkdirExistOk` only grows the filesystem. -/
theorem incl_mkdir (q : FPath) (fs : FS) : FS.Incl fs (mkdirExistOk q fs) :=
  ⟨fun p h => mkdir_hasDir_mono p q fs h,
   fun p h => by simpa [FS.hasFile, mkdir_files] using h⟩

/-- `create_part_excel` only grows the filesystem. -/
theorem incl_cpe (avail : Bool) (folder : FPath) (name : String) (fs : FS) :
    FS.Incl fs (create_part_excel avail folder name fs) :=
  ⟨fun p h => by rw [hasDir_iff_mem] at h ⊢; simpa [cpe_dirs] using h,
   fun p h => cpe_hasFile_mono avail folder name p fs h⟩

mutual

/-- One scaffolded node only grows the filesystem. -/
theorem run_node_incl (avail : Bool) : ∀ (t : PTree) (parent : FPath) (fs : FS),
    FS.Incl fs (create_folders_from_node avail t parent fs).1
  | PTree.node name children, parent, fs => by
    simp only [create_folders_from_node]
    split
    · exact incl_refl fs
    · exact incl_trans (incl_mkdir _ _)
        (incl_trans (incl_cpe avail _ _ _) (run_list_incl avail children _ _))

/-- A scaffolded forest only grows the filesystem. -/
theorem run_list_incl (avail : Bool) : ∀ (h : List PTree) (parent : FPath) (fs : FS),
    FS.Incl fs (create_folders_from_hierarchy avail h parent fs).1
  | [], _, fs => incl_refl fs
  | t :: rest, parent, fs => by
    simp only [create_folders_from_hierarchy]
    exact incl_trans (run_node_incl avail t parent fs) (run_list_incl avail rest parent _)

end

mutual

/-- Node completion is preserved by growing the filesystem. -/
theorem done_node_incl (avail : Bool) : ∀ (t : PTree) (parent : FPath) (fs fs2 : FS),
    ScaffoldDoneNode avail t parent fs → FS.Incl fs fs2 → ScaffoldDoneNode avail t parent fs2
  | PTree.node name children, parent, fs, fs2, h, hincl => by
    simp only [ScaffoldDoneNode] at h ⊢
    intro hne
    obtain ⟨hdir, hfile, hlist⟩ := h hne
    exact ⟨hincl.1 _ hdir, fun ha => hincl.2 _ (hfile ha),
      done_list_incl avail children _ fs fs2 hlist hincl⟩

/-- Forest completion is preserved by growing the filesystem. -/
theorem done_list_incl (avail : Bool) : ∀ (h : List PTree) (parent : FPath) (fs fs2 : FS),
    ScaffoldDoneList avail h parent fs → FS.Incl fs fs2 → ScaffoldDoneList avail h parent fs2
  | [], _, _, _, _, _ => by simp only [ScaffoldDoneList]
  | t :: rest, parent, fs, fs2, hd, hincl => by
    simp only [ScaffoldDoneList] at hd ⊢
    exact ⟨done_node_incl avail t parent fs fs2 hd.1 hincl,
      done_list_incl avail rest parent fs fs2 hd.2 hincl⟩

end

mutual

/-- After scaffolding a node, everything it needs exists. -/
theorem run_node_done (avail : Bool) : ∀ (t : PTree) (parent : FPath) (fs : FS),
    ScaffoldDoneNode avail t parent (create_folders_from_node avail t parent fs).1
  | PTree.node name children, parent, fs => by
    simp only [create_folders_from_node, ScaffoldDoneNode]
    split
    · rename_i hblank
      intro hne
      exact absurd hblank hne
    · intro _
      refine ⟨?_, ?_, ?_⟩
      · exact (run_list_incl avail children _ _).1 _
          ((incl_cpe avail _ _ _).1 _ (mkdir_hasDir_self (parent ++ [name]) fs))
      · intro ha
        cases avail with
        | false => exact absurd ha (by simp)
        | true =>
          exact (run_list_incl true children _ _).2 _ (cpe_hasFile_self _ _ _)
      · exact run_list_done avail children (parent ++ [name]) _

/-- After scaffolding a forest, everything it needs exists. -/
theorem run_list_done (avail : Bool) : ∀ (h : List PTree) (parent : FPath) (fs : FS),
    ScaffoldDoneList avail h parent (create_folders_from_hierarchy avail h parent fs).1
  | [], _, fs => by simp only [create_folders_from_hierarchy, ScaffoldDoneList]
  | t :: rest, parent, fs => by
    simp only [create_folders_from_hierarchy, ScaffoldDoneList]
    exact ⟨done_node_incl avail t parent _ _ (run_node_done avail t parent fs)
        (run_list_incl avail rest parent _),
      run_list_done avail rest parent _⟩

end

mutual

/-- Scaffolding a node whose artifacts all exist leaves the state alone. -/
theorem run_node_fst_of_done (avail : Bool) : ∀ (t : PTree) (parent : FPath) (fs : FS),
    ScaffoldDoneNode avail t parent fs → (create_folders_from_node avail t parent fs).1 = fs
  | PTree.node name children, parent, fs, hdone => by
    simp only [create_folders_from_node]
    split
    · rfl
    · rename_i hblank
      simp only [ScaffoldDoneNode] at hdone
      obtain ⟨hdir, hfile, hlist⟩ := hdone hblank
      rw [mkdir_eq_of_hasDir _ _ hdir, cpe_eq_of_done avail _ _ _ hfile]
      exact run_list_fst_of_done avail children _ _ hlist

/-- Scaffolding a forest whose artifacts all exist leaves the state alone. -/
theorem run_list_fst_of_done (avail : Bool) : ∀ (h : List PTree) (parent : FPath) (fs : FS),
    ScaffoldDoneList avail h parent fs →
      (create_folders_from_hierarchy avail h parent fs).1 = fs
  | [], _, _, _ => rfl
  | t :: rest, parent, fs, hdone => by
    simp only [create_folders_from_hierarchy]
    simp only [ScaffoldDoneList] at hdone
    rw [run_node_fst_of_done avail t parent fs hdone.1]
    exact run_list_fst_of_done avail rest parent fs hdone.2

end

mutual

/-- Scaffolding a node keeps directory names distinct. -/
theorem run_node_nodup (avail : Bool) : ∀ (t : PTree) (parent : FPath) (fs : FS),
    fs.dirs.Nodup → (create_folders_from_node avail t parent fs).1.dirs.Nodup
  | PTree.node name children, parent, fs, h => by
    simp only [create_folders_from_node]
    split
    · exact h
    · apply run_list_nodup avail children
      rw [cpe_dirs]
      exact mkdir_nodup _ _ h

/-- Scaffolding a forest keeps directory names distinct. -/
theorem run_list_nodup (avail : Bool) : ∀ (h : List PTree) (parent : FPath) (fs : FS),
    fs.dirs.Nodup → (create_folders_from_hierarchy avail h parent fs).1.dirs.Nodup
  | [], _, _, h => h
  | t :: rest, parent, fs, h => by
    simp only [create_folders_from_hierarchy]
    exact run_list_nodup avail rest parent _ (run_node_nodup avail t parent fs h)

end

/-- C5: running the scaffolder a second time on the same forest and
destination is a no-op on the filesystem — the directory set is unchanged
and duplicate-free, and every descriptor file present after the first run
(in particular any that existed before the second) is byte-for-byte
unchanged. -/
theorem C5_theorem (avail : Bool) (h : List PTree) (parent : FPath) (fs : FS) :
    (create_folders_from_hierarchy avail h parent
        (create_folders_from_hierarchy avail h parent fs).1).1 =
      (create_folders_from_hierarchy avail h parent fs).1 ∧
    (fs.dirs.Nodup → ((create_folders_from_hierarchy avail h parent fs).1).dirs.Nodup) ∧
    (∀ p c, ((create_folders_from_hierarchy avail h parent fs).1).lookupFile p = some c →
      ((create_folders_from_hierarchy avail h parent
          (create_folders_from_hierarchy avail h parent fs).1).1).lookupFile p = some c) := by
  have hid : (create_folders_from_hierarchy avail h parent
      (create_folders_from_hierarchy avail h parent fs).1).1 =
      (create_folders_from_hierarchy avail h parent fs).1 :=
    run_list_fst_of_done avail h parent _ (run_list_done avail h parent fs)
  refine ⟨hid, fun hnd => run_list_nodup avail h parent fs hnd, ?_⟩
  intro p c hc
  rw [hid]
  exact hc

/-- C5 witness: one concrete double run on a `Body`/`Chassis` forest. -/
theorem C5_witness :
    (create_folders_from_hierarchy true [PTree.node "Body" [], PTree.node "Chassis" []] ["M"]
        (create_folders_from_hierarchy true [PTree.node "Body" [], PTree.node "Chassis" []]
          ["M"] ⟨[["M"]], []⟩).1).1 =
      (create_folders_from_hierarchy true [PTree.node "Body" [], PTree.node "Chassis" []]
        ["M"] ⟨[["M"]], []⟩).1 ∧
    ((create_folders_from_hierarchy true [PTree.node "Body" [], PTree.node "Chassis" []]
        ["M"] ⟨[["M"]], []⟩).1).dirs.Nodup ∧
    ((create_folders_from_hierarchy true [PTree.node "Body" [], PTree.node "Chassis" []] ["M"]
        (create_folders_from_hierarchy true [PTree.node "Body" [], PTree.node "Chassis" []]
          ["M"] ⟨[["M"]], []⟩).1).1).lookupFile [["M"], ["Body"], ["Body.xlsx"]].flatten =
      ((create_folders_from_hierarchy true [PTree.node "Body" [], PTree.node "Chassis" []]
        ["M"] ⟨[["M"]], []⟩).1).lookupFile [["M"], ["Body"], ["Body.xlsx"]].flatten :=
  ⟨(C5_theorem true [PTree.node "Body" [], PTree.node "Chassis" []] ["M"] ⟨[["M"]], []⟩).1,
   (C5_theorem true [PTree.node "Body" [], PTree.node "Chassis" []] ["M"] ⟨[["M"]], []⟩).2.1
     (by decide),
   by rw [(C5_theorem true [PTree.node "Body" [], PTree.node "Chassis" []] ["M"]
       ⟨[["M"]], []⟩).1]⟩

end Generate
